import Mathlib

/-!
Verification of the `intervalpy` repository (`interval.py`, `util.py`).

The repository manipulates Python floats (real numbers plus the two
infinities); the embedding models the reachable values as extended
rationals (`XR`).  Python `None` endpoints — used for the collapsed
empty interval — are modelled with `Option XR`.  Operations whose
Python source raises on inputs relevant to the claims return `Option`,
with `none` marking the raise.
-/

namespace Intervalpy

/-- Extended rationals: the Python float values `-inf`, finite, `inf`. -/
inductive XR where
  | ninf : XR
  | fin (q : ℚ) : XR
  | pinf : XR
deriving DecidableEq, Repr

namespace XR

/-- Boolean comparison giving the standard order with `ninf` at the bottom
and `pinf` at the top, agreeing with Python float comparison on these
values. -/
def ble : XR → XR → Bool
  | .ninf, _ => true
  | _, .pinf => true
  | .fin a, .fin b => decide (a ≤ b)
  | _, _ => false

instance instLE : LE XR := ⟨fun a b => ble a b = true⟩

instance instDecLE : (a b : XR) → Decidable (a ≤ b) :=
  fun a b => inferInstanceAs (Decidable (ble a b = true))

instance instLinearOrder : LinearOrder XR where
  le a b := ble a b = true
  le_refl a := by cases a <;> simp [ble]
  le_trans a b c hab hbc := by
    cases a <;> cases b <;> cases c <;> simp_all [ble]
    exact le_trans hab hbc
  le_antisymm a b hab hba := by
    cases a <;> cases b <;> simp_all [ble]
    exact le_antisymm hab hba
  le_total a b := by
    cases a <;> cases b <;> simp [ble]
    exact le_total _ _
  decidableLE a b := inferInstanceAs (Decidable (ble a b = true))

theorem le_def (a b : XR) : (a ≤ b) ↔ ble a b = true := Iff.rfl

@[simp] theorem fin_le_fin {a b : ℚ} : (XR.fin a ≤ XR.fin b) ↔ a ≤ b := by
  simp [le_def, ble]

@[simp] theorem fin_lt_fin {a b : ℚ} : (XR.fin a < XR.fin b) ↔ a < b := by
  constructor
  · intro h
    rcases lt_iff_le_not_le.mp h with ⟨h1, h2⟩
    exact lt_of_le_not_le (fin_le_fin.mp h1) (fun hba => h2 (fin_le_fin.mpr hba))
  · intro h
    exact lt_of_le_not_le (fin_le_fin.mpr h.le) (fun hba => absurd (fin_le_fin.mp hba) (not_le.mpr h))

@[simp] theorem ninf_le (a : XR) : XR.ninf ≤ a := by cases a <;> simp [le_def, ble]

@[simp] theorem le_pinf (a : XR) : a ≤ XR.pinf := by cases a <;> simp [le_def, ble]

@[simp] theorem not_lt_ninf (a : XR) : ¬ a < XR.ninf := by
  intro h
  exact absurd (ninf_le a) (lt_iff_le_not_le.mp h).2

@[simp] theorem not_pinf_lt (a : XR) : ¬ XR.pinf < a := by
  intro h
  exact absurd (le_pinf a) (lt_iff_le_not_le.mp h).2

@[simp] theorem le_ninf_iff {a : XR} : a ≤ XR.ninf ↔ a = XR.ninf := by
  cases a <;> simp [le_def, ble]

@[simp] theorem pinf_le_iff {a : XR} : XR.pinf ≤ a ↔ a = XR.pinf := by
  cases a <;> simp [le_def, ble]

/-- Python float addition with a finite second argument. -/
def addQ : XR → ℚ → XR
  | .fin a, q => .fin (a + q)
  | .ninf, _ => .ninf
  | .pinf, _ => .pinf

/-- Python float subtraction with a finite second argument. -/
def subQ : XR → ℚ → XR
  | .fin a, q => .fin (a - q)
  | .ninf, _ => .ninf
  | .pinf, _ => .pinf

end XR

/-- `math.isinf`.  Never reached on `none` in the translated call sites
(there Python would raise on `math.isinf(None)` first). -/
def isinfO : Option XR → Bool
  | some .ninf => true
  | some .pinf => true
  | _ => false

/-- The stored state of `Interval.__init__`: `start`/`end` attributes (both
`None` for the collapsed empty interval) and the two openness flags.
The Python attribute `end` is a Lean keyword, hence `end_`. -/
structure Interval where
  start : Option XR
  end_ : Option XR
  start_open : Bool
  end_open : Bool
deriving DecidableEq, Repr

namespace Interval

/-- `Interval.is_empty`: `self.end == self.start and (self.end_open or self.start_open)`. -/
def is_empty (d : Interval) : Bool :=
  decide (d.end_ = d.start) && (d.end_open || d.start_open)

/-- `Interval.is_negative_infinite`: `self.start != self.end and math.isinf(self.start)`. -/
def is_negative_infinite (d : Interval) : Bool :=
  decide (d.start ≠ d.end_) && isinfO d.start

/-- `Interval.is_positive_infinite`: `self.start != self.end and math.isinf(self.end)`. -/
def is_positive_infinite (d : Interval) : Bool :=
  decide (d.start ≠ d.end_) && isinfO d.end_

/-- `Interval.is_infinite`. -/
def is_infinite (d : Interval) : Bool :=
  d.is_negative_infinite && d.is_positive_infinite

/-- `Interval.__init__(start, end, start_open, end_open)`.

The source's three `assert` statements compare `self.start`/`self.end`,
which were both just set to `0` at that point, so they check `0 >= 0`
and always pass: no range or type check actually happens and the
constructor is total. -/
def make (start0 end0 : Option XR) (start_open end_open : Bool) : Interval :=
  let start1 := if start0 = none ∧ end0 ≠ none then some XR.ninf else start0
  let end1 := if end0 = none ∧ start1 ≠ none then some XR.pinf else end0
  let collapsed := decide (end1 = start1) && (end_open || start_open)
  let start2 := if collapsed then none else start1
  let end2 := if collapsed then none else end1
  let d : Interval := ⟨start2, end2, start_open, end_open⟩
  if d.start ≠ d.end_ then
    ⟨start2, end2,
      (if d.is_negative_infinite then true else d.start_open),
      (if d.is_positive_infinite then true else d.end_open)⟩
  else d

/-- The module-level constant `empty = Interval(0, 0, start_open=True, end_open=True)`. -/
def empty : Interval := make (some (XR.fin 0)) (some (XR.fin 0)) true true

/-- The module-level constant `infinite = Interval(-math.inf, math.inf, start_open=True, end_open=True)`. -/
def infinite : Interval := make (some XR.ninf) (some XR.pinf) true true

/-- `Interval.point(x)`. -/
def point (x : XR) : Interval := make (some x) (some x) false false

/-- `Interval.contains(x, enforce_start, enforce_end)`.  The argument `x`
is `none` when Python is passed `None`.  The final `match` arm models the
`TypeError` Python raises when an endpoint is `None` and gets compared;
that state is unreachable for constructor-produced non-empty intervals. -/
def contains (d : Interval) (x : Option XR) (enforce_start enforce_end : Bool) : Bool :=
  if x = none || d.is_empty then false
  else if d.is_negative_infinite && decide (x = some XR.ninf) then true
  else if d.is_positive_infinite && decide (x = some XR.pinf) then true
  else match d.start, d.end_, x with
    | some s, some e, some xv =>
      if enforce_start && decide (xv < s) then false
      else if enforce_start && d.start_open && decide (xv = s) then false
      else if enforce_end && decide (xv > e) then false
      else if enforce_end && d.start_open && decide (xv = s) then false
      else if enforce_end && d.end_open && decide (xv = e) then false
      else true
    | _, _, _ => false

/-- `Interval.as_closed`. -/
def as_closed (d : Interval) : Interval :=
  if d.is_empty then d else make d.start d.end_ false false

/-- `Interval.as_open`. -/
def as_open (d : Interval) : Interval :=
  if d.is_empty then d else make d.start d.end_ true true

/-- `Interval.as_closed_open`. -/
def as_closed_open (d : Interval) : Interval :=
  if d.is_empty then d else make d.start d.end_ false true

/-- `Interval.as_open_closed`. -/
def as_open_closed (d : Interval) : Interval :=
  if d.is_empty then d else make d.start d.end_ true false

/-- `Interval.map(f)`: no empty guard in the source; on the empty interval
the endpoints are `None` and applying a numeric `f` raises (`none`). -/
def map (d : Interval) (f : XR → XR) : Option Interval :=
  match d.start, d.end_ with
  | some s, some e => some (make (some (f s)) (some (f e)) d.start_open d.end_open)
  | _, _ => none

/-- `Interval.offset(offset)`: no empty guard in the source; `None + offset`
raises (`none`). -/
def offset (d : Interval) (off : ℚ) : Option Interval :=
  match d.start, d.end_ with
  | some s, some e =>
    some (make (some (s.addQ off)) (some (e.addQ off)) d.start_open d.end_open)
  | _, _ => none

/-- `Interval.round(method)`: `method` is a numeric rounding function; Python's
`round` raises on `inf` (`OverflowError`) and on `None`, modelled by `none`. -/
def round (d : Interval) (method : ℚ → ℚ) : Option Interval :=
  if d.is_empty then some d
  else
    let sOpt : Option XR :=
      if d.is_negative_infinite then d.start
      else match d.start with
        | some (XR.fin q) => some (XR.fin (method q))
        | _ => none
    let eOpt : Option XR :=
      if d.is_positive_infinite then d.end_
      else match d.end_ with
        | some (XR.fin q) => some (XR.fin (method q))
        | _ => none
    match sOpt, eOpt with
    | some s, some e => some (make (some s) (some e) d.start_open d.end_open)
    | _, _ => none

/-- Python `a or b or 0` over optional numeric arguments: `None` and `0`
are falsy. -/
def pyOrQ (a b : Option ℚ) : ℚ :=
  match a with
  | some q => if q ≠ 0 then q else
      match b with
      | some r => if r ≠ 0 then r else 0
      | none => 0
  | none =>
      match b with
      | some r => if r ≠ 0 then r else 0
      | none => 0

/-- `Interval.pad(*amount, start=, end=)`: no empty guard in the source; on
the empty interval `None - amount` raises (`none`).  `amount` models the
single positional argument when present. -/
def pad (d : Interval) (amount startAmt endAmt : Option ℚ) : Option Interval :=
  let sAmt := pyOrQ startAmt amount
  let eAmt := pyOrQ endAmt amount
  let sNew : Option (Option XR) :=
    if d.is_negative_infinite then some d.start
    else match d.start with
      | some s => some (some (s.subQ sAmt))
      | none => none
  let eNew : Option (Option XR) :=
    if d.is_positive_infinite then some d.end_
    else match d.end_ with
      | some e => some (some (e.addQ eAmt))
      | none => none
  match sNew, eNew with
  | some s, some e => some (make s e d.start_open d.end_open)
  | _, _ => none

/-- `Interval.get_gte`. -/
def get_gte (d : Interval) : Interval :=
  if d.is_empty then empty
  else make d.start (some XR.pinf) d.start_open false

/-- `Interval.get_lte`. -/
def get_lte (d : Interval) : Interval :=
  if d.is_empty then empty
  else make (some XR.ninf) d.end_ false d.end_open

/-- `Interval.get_gt`. -/
def get_gt (d : Interval) : Interval :=
  if d.is_empty then empty
  else make d.end_ (some XR.pinf) (!d.end_open) false

/-- `Interval.get_lt`. -/
def get_lt (d : Interval) : Interval :=
  if d.is_empty then empty
  else make (some XR.ninf) d.start false (!d.start_open)

/-- `Interval.is_superset_of(interval)`.  The source first normalises the
argument with `Interval.parse`, the identity on intervals, so the argument
is taken already parsed.  The final arm models the `TypeError` Python
raises when ordering a `None` endpoint. -/
def is_superset_of (u v : Interval) : Bool :=
  if u.is_empty then false
  else if v.is_empty then true
  else match u.start, u.end_, v.start, v.end_ with
    | some u0, some u1, some v0, some v1 =>
      if decide (u0 > v0) then false
      else if decide (u0 = v0) && u.start_open && !v.start_open then false
      else if decide (u1 < v1) then false
      else if decide (u1 = v1) && u.end_open && !v.end_open then false
      else true
    | _, _, _, _ => false

/-- `Interval.intersects(interval)`.  Argument taken already parsed (the
source's `Interval.parse` is the identity on intervals).  When `u0 > v0`
the source's second guard `u0 >= v0` holds, giving the `else` arm. -/
def intersects (u v : Interval) : Bool :=
  if u.is_empty then false
  else if v.is_empty then false
  else match u.start, u.end_, v.start, v.end_ with
    | some u0, some u1, some v0, some v1 =>
      if decide (u0 ≤ v0) then
        if decide (u1 < v0) then false
        else if decide (u1 = v0) then (!u.end_open && !v.start_open)
        else true
      else
        if decide (v1 < u0) then false
        else if decide (v1 = u0) then (!v.end_open && !u.start_open)
        else true
    | _, _, _, _ => false

/-- `Interval.__lt__(other)`.  Argument taken already parsed. -/
def lt (self other : Interval) : Bool :=
  if self.is_empty then false
  else if other.is_empty then true
  else match self.end_, other.start with
    | some u1, some v0 =>
      if decide (u1 < v0) then true
      else if decide (u1 = v0) && (self.end_open || other.start_open) then true
      else false
    | _, _ => false

/-- `Interval.union(intervals)` over already-parsed intervals.  Python's
`min(..., key=...)`/`max(..., key=...)` over the non-empty inputs yield the
minimum start and maximum end; comparing a `None` endpoint raises
(`none`). -/
def union (intervals : List Interval) : Option Interval :=
  match intervals.filter (fun d => !d.is_empty) with
  | [] => some empty
  | [d] => some d
  | d0 :: rest =>
    if (d0 :: rest).all (fun d => d.start.isSome && d.end_.isSome) then
      let start := rest.foldl (fun m d => min m (d.start.getD XR.ninf)) (d0.start.getD XR.ninf)
      let end_ := rest.foldl (fun m d => max m (d.end_.getD XR.ninf)) (d0.end_.getD XR.ninf)
      let start_open := !((d0 :: rest).any (fun d => decide (d.start = some start) && !d.start_open))
      let end_open := !((d0 :: rest).any (fun d => decide (d.end_ = some end_) && !d.end_open))
      some (make (some start) (some end_) start_open end_open)
    else none

end Interval

/-- The loosely-typed inputs `Interval.parse` inspects at runtime. -/
inductive PyObj where
  | pyNone : PyObj
  | pyInterval (d : Interval) : PyObj
  | pyNum (x : XR) : PyObj
  | pySeq (l : List XR) : PyObj
  | pyStr (s : String) : PyObj

namespace Interval

/-- `Interval.parse(d, default_inf)`.  Branch order as in the source:
`None`, `Interval`, `Number`, falsy, 2-element sequence, error. -/
def parse (d : PyObj) (default_inf : Bool) : Except String Interval :=
  match d with
  | .pyNone =>
    if default_inf then Except.ok infinite
    else Except.error "Unable to parse interval"
  | .pyInterval i => Except.ok i
  | .pyNum x => Except.ok (point x)
  | .pySeq l =>
    if l.isEmpty then Except.ok empty
    else match l with
      | [a, b] => Except.ok (make (some a) (some b) false false)
      | _ => Except.error "Unable to parse interval"
  | .pyStr s =>
    if s.isEmpty then Except.ok empty
    else Except.error "Unable to parse interval"

end Interval

/-- Loop of `bisect_objects` for numeric values (`key=None`), leftmost
insertion point.  Fuel-driven: each iteration shrinks `hi - lo`, and call
sites pass fuel `hi + 1`, enough for the loop to run to completion. -/
def bisectLoop (a : List ℚ) (x : ℚ) : ℕ → ℕ → ℕ → ℕ
  | 0, lo, _ => lo
  | fuel + 1, lo, hi =>
    if lo < hi then
      let mid := (lo + hi) / 2
      if a.getD mid 0 < x then bisectLoop a x fuel (mid + 1) hi
      else bisectLoop a x fuel lo mid
    else lo

/-- `bisect_objects(a, x, lo, hi)` for a numeric list (`key=None`): `x` at
`±inf` short-circuits to `hi`/`lo` before the loop. -/
def bisect_objects (a : List ℚ) (x : XR) (lo hi : ℕ) : ℕ :=
  match x with
  | .pinf => hi
  | .ninf => lo
  | .fin q => bisectLoop a q (hi + 1) lo hi

namespace Interval

/-- Left tightening loop of `index_range`:
`while i0 != i1: x = values[i0]; if x < start and not contains(x): i0 += 1 else break`.
Fuel-driven with fuel `> i1`, enough to run to completion. -/
def tightenLeft (d : Interval) (values : List ℚ) (s : XR) (i1 : ℕ) : ℕ → ℕ → ℕ
  | 0, i0 => i0
  | fuel + 1, i0 =>
    if i0 ≠ i1 then
      let x := values.getD i0 0
      if decide (XR.fin x < s) && !(d.contains (some (XR.fin x)) true true) then
        tightenLeft d values s i1 fuel (i0 + 1)
      else i0
    else i0

/-- Right tightening loop of `index_range`:
`while i1 != 0 and i0 != i1: x = values[i1-1]; if x > end and not contains(x): i1 -= 1 else break`. -/
def tightenRight (d : Interval) (values : List ℚ) (e : XR) (i0 : ℕ) : ℕ → ℕ → ℕ
  | 0, i1 => i1
  | fuel + 1, i1 =>
    if i1 ≠ 0 ∧ i0 ≠ i1 then
      let x := values.getD (i1 - 1) 0
      if decide (XR.fin x > e) && !(d.contains (some (XR.fin x)) true true) then
        tightenRight d values e i0 fuel (i1 - 1)
      else i1
    else i1

/-- `Interval.index_range(values)` for a numeric sorted list (`key=None`).
`max(0, b - 1)` is ℕ subtraction's clamp at 0.  The final arm models the
raise when bisecting on a `None` endpoint. -/
def index_range (d : Interval) (values : List ℚ) : Option (ℕ × ℕ) :=
  if d.is_empty then some (0, 0)
  else
    let n := values.length
    if n = 0 || d.is_infinite then some (0, n)
    else match d.start, d.end_ with
      | some s, some e =>
        let i0 := bisect_objects values s 0 n - 1
        let i1 := min n (bisect_objects values e 0 n + 1)
        let i0' := tightenLeft d values s i1 (n + 1) i0
        let i1' := tightenRight d values e i0' (n + 1) i1
        some (i0', i1')
      | _, _ => none

end Interval

namespace Interval

/-! ### Helper lemmas about the constructor -/

/-- `make` on two supplied endpoints: either the collapse rule fires and the
endpoints become `None`, or they are stored as given with the forced-open
rule applied to infinite endpoints. -/
theorem make_some_some (s e : XR) (so eo : Bool) :
    make (some s) (some e) so eo =
      if e = s ∧ (eo = true ∨ so = true) then ⟨none, none, so, eo⟩
      else ⟨some s, some e,
            (if s ≠ e ∧ isinfO (some s) = true then true else so),
            (if s ≠ e ∧ isinfO (some e) = true then true else eo)⟩ := by
  by_cases hc : e = s ∧ (eo = true ∨ so = true)
  · simp [make, is_negative_infinite, is_positive_infinite, hc, hc.1,
      (show (eo || so) = true by rcases hc.2 with h | h <;> simp [h])]
  · have hcb : (decide (e = s) && (eo || so)) = false := by
      by_cases hes : e = s
      · have heo : eo = false := by
          rcases Bool.eq_false_or_eq_true eo with h | h
          · exact absurd ⟨hes, Or.inl h⟩ hc
          · exact h
        have hso : so = false := by
          rcases Bool.eq_false_or_eq_true so with h | h
          · exact absurd ⟨hes, Or.inr h⟩ hc
          · exact h
        simp [heo, hso]
      · simp [hes]
    rw [if_neg hc]
    by_cases hse : s = e
    · subst hse
      have heo : eo = false := by
        rcases Bool.eq_false_or_eq_true eo with h | h
        · exact absurd ⟨rfl, Or.inl h⟩ hc
        · exact h
      have hso : so = false := by
        rcases Bool.eq_false_or_eq_true so with h | h
        · exact absurd ⟨rfl, Or.inr h⟩ hc
        · exact h
      simp [make, hcb, heo, hso]
    · rcases Bool.eq_false_or_eq_true (isinfO (some s)) with h1 | h1 <;>
        rcases Bool.eq_false_or_eq_true (isinfO (some e)) with h2 | h2 <;>
        simp [make, hcb, hse, is_negative_infinite, is_positive_infinite, h1, h2,
          (show some s ≠ some e by simpa using hse)]

/-- Normal form of `contains` with `enforce_start=false, enforce_end=true`
on a non-inverted interval, away from the start boundary: only the end
boundary, its openness and the positive-infinite special case matter. -/
theorem contains_end_side (d : Interval) (s e v : XR)
    (hs : d.start = some s) (he : d.end_ = some e) (hne : d.is_empty = false)
    (hle : s ≤ e) (hx : v ≠ s) :
    d.contains (some v) false true =
      (if v = XR.pinf ∧ e = XR.pinf then true
       else if e < v then false
       else if d.end_open = true ∧ v = e then false
       else true) := by
  obtain ⟨ds, de, dso, deo⟩ := d
  simp only at hs he
  subst hs he
  cases v <;> cases s <;> cases e <;>
    simp_all [Interval.contains, Interval.is_empty, Interval.is_negative_infinite,
      Interval.is_positive_infinite, isinfO, XR.le_ninf_iff, XR.pinf_le_iff] <;>
    (try split_ifs) <;> (try simp_all) <;> (try tauto) <;> (try linarith)

/-- Normal form of `contains` with `enforce_start=true, enforce_end=false`
on a non-inverted interval: only the start boundary, its openness and the
negative-infinite special case matter. -/
theorem contains_start_side (d : Interval) (s e v : XR)
    (hs : d.start = some s) (he : d.end_ = some e) (hne : d.is_empty = false)
    (hle : s ≤ e) :
    d.contains (some v) true false =
      (if v = XR.ninf ∧ s = XR.ninf then true
       else if v < s then false
       else if d.start_open = true ∧ v = s then false
       else true) := by
  obtain ⟨ds, de, dso, deo⟩ := d
  simp only at hs he
  subst hs he
  cases v <;> cases s <;> cases e <;>
    simp_all [Interval.contains, Interval.is_empty, Interval.is_negative_infinite,
      Interval.is_positive_infinite, isinfO, XR.le_ninf_iff, XR.pinf_le_iff] <;>
    (try split_ifs) <;> (try simp_all) <;> (try tauto) <;> (try linarith)

/-- `make` with both endpoints `None`: nothing is defaulted and the input
flags are stored unchanged. -/
theorem make_none_none (so eo : Bool) : make none none so eo = ⟨none, none, so, eo⟩ := by
  simp [make]

/-- `make` with `start=None` and `end` given defaults `start` to `-inf`. -/
theorem make_none_some (e : XR) (so eo : Bool) :
    make none (some e) so eo = make (some XR.ninf) (some e) so eo := by
  simp [make]

/-- `make` with `end=None` and `start` given defaults `end` to `+inf`. -/
theorem make_some_none (s : XR) (so eo : Bool) :
    make (some s) none so eo = make (some s) (some XR.pinf) so eo := by
  simp [make]

/-- An interval whose stored endpoints are supplied and which is closed
when degenerate is non-empty. -/
theorem nonempty_of_fields (d : Interval) (s e : XR)
    (hs : d.start = some s) (he : d.end_ = some e)
    (hp : s = e → d.start_open = false ∧ d.end_open = false) :
    d.is_empty = false := by
  by_cases hse : s = e
  · rcases hp hse with ⟨h1, h2⟩
    simp [Interval.is_empty, hs, he, hse, h1, h2]
  · simp [Interval.is_empty, hs, he]
    exact fun h => absurd h.symm hse

/-- `math.isinf` on a present value holds only at the two infinities. -/
theorem isinf_cases {x : XR} (h : isinfO (some x) = true) :
    x = XR.ninf ∨ x = XR.pinf := by
  cases x <;> simp_all [isinfO]

/-- Sufficient conditions for `is_superset_of` on an interval given in
record form: wider endpoints, and an open boundary of the superset at a
shared endpoint forces the subset open there too. -/
theorem superset_of_record (m M : XR) (uo ue : Bool) (v : Interval) (sv ev : XR)
    (hsv : v.start = some sv) (hev : v.end_ = some ev) (hnv : v.is_empty = false)
    (hne : Interval.is_empty ⟨some m, some M, uo, ue⟩ = false)
    (hm : m ≤ sv) (hM : ev ≤ M)
    (h1 : uo = true → m = sv → v.start_open = true)
    (h2 : ue = true → M = ev → v.end_open = true) :
    Interval.is_superset_of ⟨some m, some M, uo, ue⟩ v = true := by
  simp only [Interval.is_superset_of, hne, hnv, hsv, hev, Bool.false_eq_true, if_false]
  split_ifs with c1 c2 c3 c4
  · exact absurd (by simpa using c1) (not_lt.mpr hm)
  · simp only [Bool.and_eq_true, decide_eq_true_eq, Bool.not_eq_true'] at c2
    exact absurd (h1 c2.1.2 c2.1.1) (by simp [c2.2])
  · exact absurd (by simpa using c3) (not_lt.mpr hM)
  · simp only [Bool.and_eq_true, decide_eq_true_eq, Bool.not_eq_true'] at c4
    exact absurd (h2 c4.1.2 c4.1.1) (by simp [c4.2])
  · rfl

end Interval

/-! ### Claim theorems -/

open Interval

/-- C1 (code bug): evaluating `index_range` at the failing input.  For the
half-open interval `[0, 2)` over the sorted values `[1, 2]` the code returns
the index pair `(0, 2)`, although the value `2` sits at the open end
boundary and is not contained — the brute-force membership filter selects
only `[1]`, i.e. the pair `(0, 1)`.  The right tightening loop only drops
elements whose key is strictly greater than `end`, so an element equal to
an open boundary is kept. -/
theorem C1_index_range_open_boundary_eval :
    Interval.index_range (Interval.make (some (XR.fin 0)) (some (XR.fin 2)) false true) [1, 2]
      = some (0, 2) ∧
    Interval.contains (Interval.make (some (XR.fin 0)) (some (XR.fin 2)) false true)
      (some (XR.fin 2)) true true = false ∧
    Interval.contains (Interval.make (some (XR.fin 0)) (some (XR.fin 2)) false true)
      (some (XR.fin 1)) true true = true := by
  refine ⟨by decide, by decide, by decide⟩

/-- C3 (code bug): the constructor's range check never fires because the
asserts compare `self.start`/`self.end`, both just set to `0`.
`Interval(1, 0)` therefore constructs successfully (the embedded
constructor is total) and stores `start = 1 > end = 0`, and the result is
not even empty. -/
theorem C3_make_inverted_range_succeeds :
    Interval.make (some (XR.fin 1)) (some (XR.fin 0)) false false
      = ⟨some (XR.fin 1), some (XR.fin 0), false, false⟩ ∧
    (Interval.make (some (XR.fin 1)) (some (XR.fin 0)) false false).is_empty = false ∧
    (XR.fin 0 < XR.fin 1) := by
  refine ⟨by decide, by decide, by decide⟩

/-- C5 counterexample: the claim says `empty < x` is true for every
non-empty `x`, but `__lt__` returns `False` whenever `self` is empty:
`empty < point(0)` evaluates to false although `point(0)` is non-empty. -/
theorem C5_counterexample_empty_lt_nonempty :
    Interval.lt Interval.empty (Interval.point (XR.fin 0)) = false ∧
    (Interval.point (XR.fin 0)).is_empty = false := by
  refine ⟨by decide, by decide⟩

/-- C5 amended: under `__lt__` the empty interval is strictly less than
nothing at all — `empty < x` is false for every interval `x` (`__lt__`
returns `False` as soon as `self` is empty), in particular
`empty < empty` is false. -/
theorem C5_empty_lt_always_false (d : Interval) : Interval.lt Interval.empty d = false := rfl

/-- C6 counterexample: the claim says every transformation applied to the
empty interval succeeds and returns the empty interval, but `offset` has
no empty guard and adds the offset to the stored `None` endpoints, which
raises in Python (modelled by `none`). -/
theorem C6_counterexample_offset_empty : Interval.offset Interval.empty 1 = none := rfl

/-- C6 amended: on the empty interval, `round`, the four `as_*` rewrites
and the four `get_*` half-lines indeed return the empty interval, but
`map`, `offset` and `pad` have no empty guard and fail (they apply
arithmetic, or the caller-supplied numeric function, to the stored `None`
endpoints). -/
theorem C6_empty_transformations :
    (∀ f : XR → XR, Interval.map Interval.empty f = none) ∧
    (∀ q : ℚ, Interval.offset Interval.empty q = none) ∧
    (∀ a s e : Option ℚ, Interval.pad Interval.empty a s e = none) ∧
    (∀ m : ℚ → ℚ, Interval.round Interval.empty m = some Interval.empty) ∧
    Interval.as_closed Interval.empty = Interval.empty ∧
    Interval.as_open Interval.empty = Interval.empty ∧
    Interval.as_closed_open Interval.empty = Interval.empty ∧
    Interval.as_open_closed Interval.empty = Interval.empty ∧
    Interval.get_gte Interval.empty = Interval.empty ∧
    Interval.get_lte Interval.empty = Interval.empty ∧
    Interval.get_gt Interval.empty = Interval.empty ∧
    Interval.get_lt Interval.empty = Interval.empty :=
  ⟨fun _ => rfl, fun _ => rfl, fun _ _ _ => rfl, fun _ => rfl,
   rfl, rfl, rfl, rfl, rfl, rfl, rfl, rfl⟩

/-- C10: `parse` classifies numeric input before the falsy check, so the
falsy number `0` parses to the non-empty point interval `[0, 0]`; every
number parses to a point interval; a falsy non-numeric value such as the
empty sequence parses to the empty interval. -/
theorem C10_parse_numeric_zero :
    Interval.parse (PyObj.pyNum (XR.fin 0)) false = Except.ok (Interval.point (XR.fin 0)) ∧
    Interval.point (XR.fin 0) = ⟨some (XR.fin 0), some (XR.fin 0), false, false⟩ ∧
    (Interval.point (XR.fin 0)).is_empty = false ∧
    (∀ x : XR, Interval.parse (PyObj.pyNum x) false = Except.ok (Interval.point x)) ∧
    Interval.parse (PyObj.pySeq []) false = Except.ok Interval.empty ∧
    Interval.empty.is_empty = true :=
  ⟨rfl, by decide, by decide, fun _ => rfl, rfl, by decide⟩

/-- C2 counterexample: for the valid construction `Interval(-inf, 5)` the
start flag is forced open, yet `contains(-inf)` is true via the
negative-infinite special case, so `contains(start)` and
`not start_open` disagree on infinite endpoints. -/
theorem C2_counterexample_infinite_start :
    (Interval.make (some XR.ninf) (some (XR.fin 5)) false false).start_open = true ∧
    Interval.contains (Interval.make (some XR.ninf) (some (XR.fin 5)) false false)
      (some XR.ninf) true true = true := by
  refine ⟨by decide, by decide⟩

/-- C8 counterexample: `Interval(inf, inf)` is a constructible non-empty
point interval whose end is `+inf` but whose `end_open` flag stays
`false` — the forced-open rule only applies when `start != end`. -/
theorem C8_counterexample_point_pinf :
    (Interval.make (some XR.pinf) (some XR.pinf) false false).is_empty = false ∧
    (Interval.make (some XR.pinf) (some XR.pinf) false false).end_ = some XR.pinf ∧
    (Interval.make (some XR.pinf) (some XR.pinf) false false).end_open = false := by
  refine ⟨by decide, by decide, by decide⟩

/-- C9 counterexample: with `enforce_start=false, enforce_end=true` the
claim says a point equal to an open start boundary is reported as
contained, but the `enforce_end` block of `contains` also rejects
`x == start` when `start_open`: on `(0, 5]`, `contains(0, false, true)`
is false although `0` satisfies the end-side constraint. -/
theorem C9_counterexample_open_start_in_end_check :
    Interval.contains (Interval.make (some (XR.fin 0)) (some (XR.fin 5)) true false)
      (some (XR.fin 0)) false true = false ∧
    (Interval.make (some (XR.fin 0)) (some (XR.fin 5)) true false).is_empty = false ∧
    (XR.fin 0 ≤ XR.fin 5) := by
  refine ⟨by decide, by decide, by decide⟩

/-- C7 counterexample: `a = point(-inf)` and `b = [0, 5]` are non-empty
constructible intervals, but `union([a, b])` is `(-inf, 5]` — the
constructor forces the infinite start open — and it is not a superset of
`a`, which contains `-inf`. -/
theorem C7_counterexample_point_ninf :
    (Interval.point XR.ninf).is_empty = false ∧
    (Interval.make (some (XR.fin 0)) (some (XR.fin 5)) false false).is_empty = false ∧
    Interval.union [Interval.point XR.ninf,
        Interval.make (some (XR.fin 0)) (some (XR.fin 5)) false false]
      = some (Interval.make (some XR.ninf) (some (XR.fin 5)) true false) ∧
    Interval.is_superset_of (Interval.make (some XR.ninf) (some (XR.fin 5)) true false)
      (Interval.point XR.ninf) = false := by
  refine ⟨by decide, by decide, by decide, by decide⟩

/-- C2 amended: for every valid construction with finite endpoints
`start <= end` that does not collapse to empty, `contains(start)` holds
iff `start_open` is false and `contains(end)` holds iff `end_open` is
false.  (At infinite endpoints the special cases of `contains` break the
equivalence, see the counterexample.) -/
theorem C2_contains_endpoints_finite (s e : ℚ) (so eo : Bool)
    (hle : s ≤ e) (hnc : ¬(s = e ∧ (so = true ∨ eo = true))) :
    Interval.contains (Interval.make (some (XR.fin s)) (some (XR.fin e)) so eo)
      (some (XR.fin s)) true true = !so ∧
    Interval.contains (Interval.make (some (XR.fin s)) (some (XR.fin e)) so eo)
      (some (XR.fin e)) true true = !eo := by
  have hmk : Interval.make (some (XR.fin s)) (some (XR.fin e)) so eo
      = ⟨some (XR.fin s), some (XR.fin e), so, eo⟩ := by
    rw [Interval.make_some_some, if_neg, if_neg, if_neg]
    · simp [isinfO]
    · simp [isinfO]
    · intro h
      exact hnc ⟨((XR.fin.injEq e s).mp h.1).symm, h.2.symm⟩
  rw [hmk]
  rcases Bool.eq_false_or_eq_true so with hso | hso <;>
    rcases Bool.eq_false_or_eq_true eo with heo | heo <;>
      subst hso <;> subst heo <;> by_cases hse : s = e
  · exact absurd ⟨hse, Or.inl rfl⟩ hnc
  · simp [Interval.contains, Interval.is_empty, Interval.is_negative_infinite,
      Interval.is_positive_infinite, isinfO, hse, lt_irrefl, not_lt.mpr hle,
      fun h : e = s => hse h.symm]
  · exact absurd ⟨hse, Or.inl rfl⟩ hnc
  · simp [Interval.contains, Interval.is_empty, Interval.is_negative_infinite,
      Interval.is_positive_infinite, isinfO, hse, lt_irrefl, not_lt.mpr hle,
      fun h : e = s => hse h.symm]
    exact fun h => hse h.symm
  · exact absurd ⟨hse, Or.inr rfl⟩ hnc
  · simp [Interval.contains, Interval.is_empty, Interval.is_negative_infinite,
      Interval.is_positive_infinite, isinfO, hse, lt_irrefl, not_lt.mpr hle,
      fun h : e = s => hse h.symm]
    exact fun h => hse h.symm
  · subst hse
    simp [Interval.contains, Interval.is_empty, Interval.is_negative_infinite,
      Interval.is_positive_infinite, isinfO, lt_irrefl]
  · simp [Interval.contains, Interval.is_empty, Interval.is_negative_infinite,
      Interval.is_positive_infinite, isinfO, hse, lt_irrefl, not_lt.mpr hle,
      fun h : e = s => hse h.symm]

/-- C2 witness at a concrete valid construction `(0, 1]` (open start). -/
theorem C2_contains_endpoints_finite_witness :
    ((0 : ℚ) ≤ 1) ∧ ¬((0 : ℚ) = 1 ∧ (true = true ∨ false = true)) ∧
    (Interval.contains (Interval.make (some (XR.fin 0)) (some (XR.fin 1)) true false)
        (some (XR.fin 0)) true true = !true ∧
      Interval.contains (Interval.make (some (XR.fin 0)) (some (XR.fin 1)) true false)
        (some (XR.fin 1)) true true = !false) :=
  ⟨by norm_num, by norm_num,
    C2_contains_endpoints_finite 0 1 true false (by norm_num) (by norm_num)⟩

/-- C9 amended: with `enforce_start=false, enforce_end=true`, `contains`
still rejects an `x` equal to an open (finite) start boundary — the
`enforce_end` block re-checks the start flag — but away from the start
boundary the result is independent of the start boundary value and
openness; with `enforce_end=false` the result is independent of the end
boundary (intervals non-empty and non-inverted in both parts). -/
theorem C9_enforce_one_side :
    (∀ (d : Interval) (q : ℚ) (e : XR),
        d.is_empty = false → d.start = some (XR.fin q) → d.end_ = some e →
        d.start_open = true →
        d.contains (some (XR.fin q)) false true = false) ∧
    (∀ (d d' : Interval) (s s' e : XR) (x : Option XR),
        d.start = some s → d.end_ = some e → d'.start = some s' → d'.end_ = some e →
        d.end_open = d'.end_open → s ≤ e → s' ≤ e →
        d.is_empty = false → d'.is_empty = false →
        x ≠ some s → x ≠ some s' →
        d.contains x false true = d'.contains x false true) ∧
    (∀ (d d' : Interval) (s e e' : XR) (x : Option XR),
        d.start = some s → d.end_ = some e → d'.start = some s → d'.end_ = some e' →
        d.start_open = d'.start_open → s ≤ e → s ≤ e' →
        d.is_empty = false → d'.is_empty = false →
        d.contains x true false = d'.contains x true false) := by
  refine ⟨?_, ?_, ?_⟩
  · intro d q e hne hs he hso
    obtain ⟨ds, de, dso, deo⟩ := d
    simp only at hs he hso
    subst hs he hso
    cases e <;>
      simp_all [Interval.contains, Interval.is_empty, Interval.is_negative_infinite,
        Interval.is_positive_infinite, isinfO] <;>
      (try split_ifs) <;> (try simp_all) <;> (try tauto) <;> (try linarith)
  · intro d d' s s' e x hs he hs' he' heo hle hle' hne hne' hx hx'
    cases x with
    | none => simp [Interval.contains]
    | some v =>
      rw [Interval.contains_end_side d s e v hs he hne hle (fun h => hx (by rw [h])),
        Interval.contains_end_side d' s' e v hs' he' hne' hle' (fun h => hx' (by rw [h])), heo]
  · intro d d' s e e' x hs he hs' he' hso hle hle' hne hne'
    cases x with
    | none => simp [Interval.contains]
    | some v =>
      rw [Interval.contains_start_side d s e v hs he hne hle,
        Interval.contains_start_side d' s e' v hs' he' hne' hle', hso]

/-- C9 witness: the first part applied to `(0, 5]` at `x = 0`. -/
theorem C9_enforce_one_side_witness :
    Interval.contains ⟨some (XR.fin 0), some (XR.fin 5), true, false⟩
      (some (XR.fin 0)) false true = false :=
  C9_enforce_one_side.1 ⟨some (XR.fin 0), some (XR.fin 5), true, false⟩ 0 (XR.fin 5)
    (by decide) rfl rfl rfl

/-- C8 amended: for every constructed interval whose stored endpoints
differ, an endpoint at `+inf`/`-inf` has its openness flag forced `true`
regardless of the supplied flags; a degenerate point interval at infinity
(`start == end`) keeps its supplied flags (see the counterexample). -/
theorem C8_forced_open_nonpoint (s0 e0 : Option XR) (so eo : Bool)
    (h : (Interval.make s0 e0 so eo).start ≠ (Interval.make s0 e0 so eo).end_) :
    ((Interval.make s0 e0 so eo).end_ = some XR.pinf →
      (Interval.make s0 e0 so eo).end_open = true) ∧
    ((Interval.make s0 e0 so eo).start = some XR.ninf →
      (Interval.make s0 e0 so eo).start_open = true) := by
  have core : ∀ (s e : XR),
      (Interval.make (some s) (some e) so eo).start
          ≠ (Interval.make (some s) (some e) so eo).end_ →
      ((Interval.make (some s) (some e) so eo).end_ = some XR.pinf →
        (Interval.make (some s) (some e) so eo).end_open = true) ∧
      ((Interval.make (some s) (some e) so eo).start = some XR.ninf →
        (Interval.make (some s) (some e) so eo).start_open = true) := by
    intro s e hne
    rw [Interval.make_some_some] at hne ⊢
    by_cases hc : e = s ∧ (eo = true ∨ so = true)
    · rw [if_pos hc] at hne
      exact absurd rfl hne
    · rw [if_neg hc] at hne ⊢
      simp only at hne ⊢
      have hse : s ≠ e := fun hh => hne (by rw [hh])
      constructor
      · intro hpe
        rw [if_pos ⟨hse, by simp [(show e = XR.pinf by simpa using hpe), isinfO]⟩]
      · intro hps
        rw [if_pos ⟨hse, by simp [(show s = XR.ninf by simpa using hps), isinfO]⟩]
  cases s0 with
  | none =>
    cases e0 with
    | none =>
      rw [Interval.make_none_none] at h
      exact absurd rfl h
    | some e =>
      rw [Interval.make_none_some] at h ⊢
      exact core XR.ninf e h
  | some s =>
    cases e0 with
    | none =>
      rw [Interval.make_some_none] at h ⊢
      exact core s XR.pinf h
    | some e =>
      exact core s e h

/-- C8 witness: the construction `Interval(-inf, 0)`. -/
theorem C8_forced_open_nonpoint_witness :
    ((Interval.make (some XR.ninf) (some (XR.fin 0)) false false).end_ = some XR.pinf →
      (Interval.make (some XR.ninf) (some (XR.fin 0)) false false).end_open = true) ∧
    ((Interval.make (some XR.ninf) (some (XR.fin 0)) false false).start = some XR.ninf →
      (Interval.make (some XR.ninf) (some (XR.fin 0)) false false).start_open = true) :=
  C8_forced_open_nonpoint (some XR.ninf) (some (XR.fin 0)) false false (by decide)

/-- C4 (code bug): evaluating `intersects` at the failing input.  For
`a = (2, 5]` and `b = [2, 2]` the code returns `a.intersects(b) = True`
although the two intervals share no point — they meet only at `2`, where
`a`'s side is open, so per the claim they must not intersect — while the
swapped call `b.intersects(a)` returns `False`.  The `u0 <= v0` branch
never compares `v1` with `u0`, missing the point-at-open-start case. -/
theorem C4_intersects_point_open_touch :
    Interval.intersects (Interval.make (some (XR.fin 2)) (some (XR.fin 5)) true false)
      (Interval.point (XR.fin 2)) = true ∧
    Interval.intersects (Interval.point (XR.fin 2))
      (Interval.make (some (XR.fin 2)) (some (XR.fin 5)) true false) = false ∧
    (∀ x : Option XR,
      ¬(Interval.contains (Interval.make (some (XR.fin 2)) (some (XR.fin 5)) true false)
            x true true = true ∧
        Interval.contains (Interval.point (XR.fin 2)) x true true = true)) := by
  refine ⟨by decide, by decide, ?_⟩
  rintro x ⟨hA, hB⟩
  have hpt : Interval.point (XR.fin 2) = ⟨some (XR.fin 2), some (XR.fin 2), false, false⟩ := by
    decide
  cases x with
  | none => exact absurd hB (by simp [Interval.contains])
  | some v =>
    cases v with
    | ninf => exact absurd hB (by decide)
    | pinf => exact absurd hB (by decide)
    | fin q =>
      have hq : q = 2 := by
        rcases lt_trichotomy q 2 with h | h | h
        · rw [hpt] at hB
          simp [Interval.contains, Interval.is_empty, Interval.is_negative_infinite,
            Interval.is_positive_infinite, isinfO, h] at hB
        · exact h
        · rw [hpt] at hB
          simp [Interval.contains, Interval.is_empty, Interval.is_negative_infinite,
            Interval.is_positive_infinite, isinfO, h, lt_asymm h] at hB
      subst hq
      exact absurd hA (by decide)

/-- C7 amended: for all non-empty intervals `a`, `b` with supplied
endpoints, `start <= end`, points closed (the constructor invariant) and
no closed infinite endpoint — i.e. neither is a degenerate point interval
at infinity — `union([a, b])` succeeds and is a superset of both inputs.
(A point interval at `-inf`/`+inf` breaks this, see the counterexample:
the union construction forces its infinite boundary open.) -/
theorem C7_union_superset (a b : Interval) (sa ea sb eb : XR)
    (hsa : a.start = some sa) (hea : a.end_ = some ea)
    (hsb : b.start = some sb) (heb : b.end_ = some eb)
    (hlea : sa ≤ ea) (hleb : sb ≤ eb)
    (hpa : sa = ea → a.start_open = false ∧ a.end_open = false)
    (hpb : sb = eb → b.start_open = false ∧ b.end_open = false)
    (hia : sa = XR.ninf → a.start_open = true) (hja : ea = XR.pinf → a.end_open = true)
    (hib : sb = XR.ninf → b.start_open = true) (hjb : eb = XR.pinf → b.end_open = true) :
    ∃ u, Interval.union [a, b] = some u ∧
      u.is_superset_of a = true ∧ u.is_superset_of b = true := by
  have hna := nonempty_of_fields a sa ea hsa hea hpa
  have hnb := nonempty_of_fields b sb eb hsb heb hpb
  have hkey : ∀ (mm MM : XR) (suu euu : Bool),
      mm = min sa sb → MM = max ea eb →
      suu = (!((decide (sa = mm) && !a.start_open) || (decide (sb = mm) && !b.start_open))) →
      euu = (!((decide (ea = MM) && !a.end_open) || (decide (eb = MM) && !b.end_open))) →
      (Interval.make (some mm) (some MM) suu euu).is_superset_of a = true ∧
      (Interval.make (some mm) (some MM) suu euu).is_superset_of b = true := by
    intro mm MM suu euu hm hM hsu heu
    have hms : mm ≤ sa := hm ▸ min_le_left sa sb
    have hmsb : mm ≤ sb := hm ▸ min_le_right sa sb
    have hMa : ea ≤ MM := hM ▸ le_max_left ea eb
    have hMb : eb ≤ MM := hM ▸ le_max_right ea eb
    have hXa : suu = true → sa = mm → a.start_open = true := by
      intro h hsm
      rw [hsu] at h
      simp only [Bool.not_eq_true', Bool.or_eq_false_iff] at h
      rcases h with ⟨h1, _⟩
      simp [hsm, Bool.and_eq_false_iff] at h1
      exact h1
    have hXb : suu = true → sb = mm → b.start_open = true := by
      intro h hsm
      rw [hsu] at h
      simp only [Bool.not_eq_true', Bool.or_eq_false_iff] at h
      rcases h with ⟨_, h2⟩
      simp [hsm, Bool.and_eq_false_iff] at h2
      exact h2
    have hYa : euu = true → ea = MM → a.end_open = true := by
      intro h hsm
      rw [heu] at h
      simp only [Bool.not_eq_true', Bool.or_eq_false_iff] at h
      rcases h with ⟨h1, _⟩
      simp [hsm, Bool.and_eq_false_iff] at h1
      exact h1
    have hYb : euu = true → eb = MM → b.end_open = true := by
      intro h hsm
      rw [heu] at h
      simp only [Bool.not_eq_true', Bool.or_eq_false_iff] at h
      rcases h with ⟨_, h2⟩
      simp [hsm, Bool.and_eq_false_iff] at h2
      exact h2
    by_cases hMm : MM = mm
    · -- degenerate case: every interval is the same closed point
      have hsam : sa = mm := le_antisymm (hMm ▸ (le_trans hlea hMa)) hms
      have heam : ea = mm := le_antisymm (hMm ▸ hMa) (hsam ▸ hlea)
      have hsbm : sb = mm := le_antisymm (hMm ▸ (le_trans hleb hMb)) hmsb
      have hebm : eb = mm := le_antisymm (hMm ▸ hMb) (hsbm ▸ hleb)
      rcases hpa (hsam.trans heam.symm) with ⟨hao, hae⟩
      rcases hpb (hsbm.trans hebm.symm) with ⟨hbo, hbe⟩
      have hsuf : suu = false := by
        rw [hsu]
        simp [hsam, hao]
      have heuf : euu = false := by
        rw [heu]
        simp [heam.trans hMm.symm, hae]
      have hnc : ¬ (MM = mm ∧ (euu = true ∨ suu = true)) := by
        rintro ⟨-, h | h⟩
        · rw [heuf] at h
          exact Bool.false_ne_true h
        · rw [hsuf] at h
          exact Bool.false_ne_true h
      rw [Interval.make_some_some, if_neg hnc]
      have hcond : ¬ (mm ≠ MM ∧ isinfO (some mm) = true) := fun hh => hh.1 hMm.symm
      have hcond2 : ¬ (mm ≠ MM ∧ isinfO (some MM) = true) := fun hh => hh.1 hMm.symm
      rw [if_neg hcond, if_neg hcond2]
      have hneu : Interval.is_empty ⟨some mm, some MM, suu, euu⟩ = false := by
        simp [Interval.is_empty, hsuf, heuf]
      constructor
      · exact superset_of_record mm MM suu euu a sa ea hsa hea hna hneu hms hMa
          (fun h hm' => hXa h hm'.symm) (fun h hM' => hYa h hM'.symm)
      · exact superset_of_record mm MM suu euu b sb eb hsb heb hnb hneu hmsb hMb
          (fun h hm' => hXb h hm'.symm) (fun h hM' => hYb h hM'.symm)
    · -- non-degenerate: the union really extends
      have hnc : ¬ (MM = mm ∧ (euu = true ∨ suu = true)) := fun hh => hMm hh.1
      rw [Interval.make_some_some, if_neg hnc]
      -- start flag transfer
      have hSa : (if mm ≠ MM ∧ isinfO (some mm) = true then true else suu) = true →
          mm = sa → a.start_open = true := by
        intro hf hmsa'
        by_cases hc : mm ≠ MM ∧ isinfO (some mm) = true
        · rcases hc with ⟨-, hinf⟩
          rw [hmsa'] at hinf
          rcases isinf_cases hinf with h | h
          · exact hia h
          · exfalso
            have hea' : ea = XR.pinf := XR.pinf_le_iff.mp (h ▸ hlea)
            have hMM' : MM = XR.pinf := XR.pinf_le_iff.mp (hea' ▸ hMa)
            exact hMm (by rw [hMM', hmsa', h])
        · rw [if_neg hc] at hf
          exact hXa hf hmsa'.symm
      have hSb : (if mm ≠ MM ∧ isinfO (some mm) = true then true else suu) = true →
          mm = sb → b.start_open = true := by
        intro hf hmsb'
        by_cases hc : mm ≠ MM ∧ isinfO (some mm) = true
        · rcases hc with ⟨-, hinf⟩
          rw [hmsb'] at hinf
          rcases isinf_cases hinf with h | h
          · exact hib h
          · exfalso
            have heb' : eb = XR.pinf := XR.pinf_le_iff.mp (h ▸ hleb)
            have hMM' : MM = XR.pinf := XR.pinf_le_iff.mp (heb' ▸ hMb)
            exact hMm (by rw [hMM', hmsb', h])
        · rw [if_neg hc] at hf
          exact hXb hf hmsb'.symm
      have hEa : (if mm ≠ MM ∧ isinfO (some MM) = true then true else euu) = true →
          MM = ea → a.end_open = true := by
        intro hf hMea
        by_cases hc : mm ≠ MM ∧ isinfO (some MM) = true
        · rcases hc with ⟨-, hinf⟩
          rw [hMea] at hinf
          rcases isinf_cases hinf with h | h
          · exfalso
            have hsa' : sa = XR.ninf := XR.le_ninf_iff.mp (h ▸ hlea)
            have hmm' : mm = XR.ninf := XR.le_ninf_iff.mp (hsa' ▸ hms)
            exact hMm (by rw [hMea, h, hmm'])
          · exact hja h
        · rw [if_neg hc] at hf
          exact hYa hf hMea.symm
      have hEb : (if mm ≠ MM ∧ isinfO (some MM) = true then true else euu) = true →
          MM = eb → b.end_open = true := by
        intro hf hMeb
        by_cases hc : mm ≠ MM ∧ isinfO (some MM) = true
        · rcases hc with ⟨-, hinf⟩
          rw [hMeb] at hinf
          rcases isinf_cases hinf with h | h
          · exfalso
            have hsb' : sb = XR.ninf := XR.le_ninf_iff.mp (h ▸ hleb)
            have hmm' : mm = XR.ninf := XR.le_ninf_iff.mp (hsb' ▸ hmsb)
            exact hMm (by rw [hMeb, h, hmm'])
          · exact hjb h
        · rw [if_neg hc] at hf
          exact hYb hf hMeb.symm
      have hneu : Interval.is_empty
          ⟨some mm, some MM,
            (if mm ≠ MM ∧ isinfO (some mm) = true then true else suu),
            (if mm ≠ MM ∧ isinfO (some MM) = true then true else euu)⟩ = false := by
        simp [Interval.is_empty, fun h : MM = mm => hMm h]
      constructor
      · exact superset_of_record mm MM _ _ a sa ea hsa hea hna hneu hms hMa hSa hEa
      · exact superset_of_record mm MM _ _ b sb eb hsb heb hnb hneu hmsb hMb hSb hEb
  obtain ⟨h1, h2⟩ := hkey (min sa sb) (max ea eb) _ _ rfl rfl rfl rfl
  refine ⟨Interval.make (some (min sa sb)) (some (max ea eb))
      (!((decide (sa = min sa sb) && !a.start_open) || (decide (sb = min sa sb) && !b.start_open)))
      (!((decide (ea = max ea eb) && !a.end_open) || (decide (eb = max ea eb) && !b.end_open))),
    ?_, h1, h2⟩
  simp [Interval.union, hna, hnb, hsa, hea, hsb, heb]

/-- C7 witness: the union of `[0, 1]` and `[2, 3]`. -/
theorem C7_union_superset_witness :
    ∃ u, Interval.union [(⟨some (XR.fin 0), some (XR.fin 1), false, false⟩ : Interval),
          ⟨some (XR.fin 2), some (XR.fin 3), false, false⟩] = some u ∧
      u.is_superset_of ⟨some (XR.fin 0), some (XR.fin 1), false, false⟩ = true ∧
      u.is_superset_of ⟨some (XR.fin 2), some (XR.fin 3), false, false⟩ = true :=
  C7_union_superset ⟨some (XR.fin 0), some (XR.fin 1), false, false⟩
    ⟨some (XR.fin 2), some (XR.fin 3), false, false⟩ (XR.fin 0) (XR.fin 1) (XR.fin 2) (XR.fin 3)
    rfl rfl rfl rfl (by decide) (by decide)
    (fun h => absurd h (by decide)) (fun h => absurd h (by decide))
    (fun h => absurd h (by decide)) (fun h => absurd h (by decide))
    (fun h => absurd h (by decide)) (fun h => absurd h (by decide))

/-- C4 witness: in particular the touching point `2` is not shared. -/
theorem C4_intersects_point_open_touch_witness :
    ¬(Interval.contains (Interval.make (some (XR.fin 2)) (some (XR.fin 5)) true false)
          (some (XR.fin 2)) true true = true ∧
      Interval.contains (Interval.point (XR.fin 2)) (some (XR.fin 2)) true true = true) :=
  C4_intersects_point_open_touch.2.2 (some (XR.fin 2))

end Intervalpy
